import Mathlib

/-!
# nodeos bootstrap (programs/nodeos/main.cpp)

A shallow embedding of the process bootstrap of nodeos: the root resolver
`determine_root_directory`, the logging (re)configuration functions
`detail::configure_logging`, `logging_conf_loop`, `initialize_logging`, and
`main`.

Library calls (Boost.Filesystem paths, the fc logging library, the appbase
application object, the asio signal set) are collaborators of the program.
Their observable behaviour is an input of the model; the order in which the
program calls them, and what it does with their results and their exceptions,
is what the definitions below transcribe. The header config.hpp is generated at
build time: its constant `version` and its function `itoh` are inputs as well.
Queries of the file system and of the environment are taken to answer.
-/

set_option autoImplicit false

namespace Nodeos

/-! ## Boost.Filesystem paths (POSIX, generic format)

`bfs::path` wraps the native pathname string. The lexical operations used by
main.cpp follow the decomposition table of the Boost.Filesystem reference, on
pathnames that carry no root-name, that is pathnames that do not begin with a
double separator (`//net` forms):

    pathname     root_directory   parent_path
    (empty)      (empty)          (empty)
    /            /                (empty)
    /opt         /                /
    /opt/app     /                /opt
    /opt/app/    /                /opt/app
    app          (empty)          (empty)
    app/bin      (empty)          app

Paths are compared by their pathname; on pathnames without redundant separators
this agrees with the element-wise comparison of Boost. -/

/-- The class bfs::path: a wrapper of the pathname string. -/
structure path where
  m_pathname : String
deriving DecidableEq, Repr

namespace path

/-- The directory separator of the generic format. -/
def is_separator (c : Char) : Bool := c == '/'

/-- Member path::string(): the pathname, unchanged. -/
def string (p : path) : String := p.m_pathname

/-- Member path::root_directory(): the separator that starts the pathname, or
the empty path when the pathname does not start with one. -/
def root_directory (p : path) : path :=
  match p.m_pathname.data with
  | [] => ⟨""⟩
  | c :: _ => if is_separator c then ⟨"/"⟩ else ⟨""⟩

/-- First step of path::parent_path() on the reversed pathname: remove the last
element. A trailing separator counts as the last element; otherwise the last
element is the run of characters after the last separator. -/
def drop_filename : List Char → List Char
  | [] => []
  | c :: t => if is_separator c then t else List.dropWhile (fun x => !is_separator x) (c :: t)

/-- Second step of path::parent_path() on the reversed pathname: skip the
separators that ended the parent, except the one at position 0 (the root
directory). -/
def skip_separators : List Char → List Char
  | [] => []
  | [c] => [c]
  | c :: d :: t => if is_separator c then skip_separators (d :: t) else c :: d :: t

/-- Member path::parent_path(): the path without its last element; empty when
the path is empty or has a single element. -/
def parent_path (p : path) : path :=
  ⟨String.mk (skip_separators (drop_filename p.m_pathname.data.reverse)).reverse⟩

/-- The operator `lhs / rhs` (path::operator/=): the pathnames are concatenated,
with a separator put between them unless rhs is empty, rhs starts with a
separator, lhs is empty or lhs ends with a separator. -/
def append (lhs rhs : path) : path :=
  match rhs.m_pathname.data with
  | [] => lhs
  | c :: _ =>
    if is_separator c then ⟨lhs.m_pathname ++ rhs.m_pathname⟩
    else
      match lhs.m_pathname.data.getLast? with
      | none => ⟨lhs.m_pathname ++ rhs.m_pathname⟩
      | some l =>
        if is_separator l then ⟨lhs.m_pathname ++ rhs.m_pathname⟩
        else ⟨lhs.m_pathname ++ "/" ++ rhs.m_pathname⟩

instance : Div path := ⟨append⟩

end path

/-! ## The root resolver -/

/-- What `determine_root_directory` reads from the process environment. -/
structure Env where
  /-- The function std::getenv: none stands for the null pointer. -/
  getenv : String → Option String
  /-- The value of boost::dll::program_location(): the path of the running binary. -/
  program_location : path
  /-- The function bfs::exists on the file system as it stands. -/
  fs_exists : path → Bool

/-- The while loop of `determine_root_directory` (main.cpp lines 87 to 93), from
a given value of the variables `root` and `p`; the result is the value of
`(root, p)` when the loop is left, by its condition or by `break`. -/
def walk (fs_exists : path → Bool) (root p : path) : path × path :=
  if p ≠ p.root_directory then
    let p1 := p.parent_path
    if fs_exists (p1 / ⟨"etc"⟩) then (p1, p1)
    else walk fs_exists root p1
  else (root, p)
termination_by p.m_pathname.length
decreasing_by
  rename_i hne _
  have hskip : ∀ l : List Char, (path.skip_separators l).length ≤ l.length := by
    intro l
    induction l using path.skip_separators.induct with
    | case1 => simp [path.skip_separators]
    | case2 _ => simp [path.skip_separators]
    | case3 c d t h ih =>
      simp only [path.skip_separators, h, if_true, List.length_cons] at ih ⊢
      omega
    | case4 c d t h => simp [path.skip_separators, h]
  have hdrop : ∀ l : List Char, l ≠ [] → (path.drop_filename l).length < l.length := by
    intro l hl
    cases l with
    | nil => exact absurd rfl hl
    | cons c t =>
      simp only [path.drop_filename]
      split
      · simp
      · rename_i hc
        rw [List.dropWhile_cons_of_pos (by simp [hc])]
        have := (List.dropWhile_sublist (fun x => !path.is_separator x) (l := t)).length_le
        simp only [List.length_cons]; omega
  have hdata : p.m_pathname.data ≠ [] := by
    intro h
    apply hne
    cases p with
    | mk s =>
      cases s with
      | mk d =>
        simp only at h
        subst h
        rfl
  have h1 := hskip (path.drop_filename p.m_pathname.data.reverse)
  have h2 := hdrop p.m_pathname.data.reverse (by simpa using hdata)
  have h3 : ∀ s : String, s.length = s.data.length := fun _ => rfl
  simp only [path.parent_path, h3, List.length_reverse] at h1 h2 ⊢
  omega

/-- The function determine_root_directory (main.cpp lines 79 to 98). -/
def determine_root_directory (env : Env) : path :=
  let root : path := ⟨""⟩
  match env.getenv "EOSIO_ROOT" with
  | some v => ⟨v⟩
  | none =>
    let (root, p) := walk env.fs_exists root env.program_location
    if p = p.root_directory then p else root

/-! ## Absolute locations

The value of boost::dll::program_location() is an absolute pathname without
redundant separators: a separator before each of its element names. -/

/-- The pathname of the absolute path whose elements are the given names, in
order: a separator before every name, and a lone separator when there is none. -/
def absolute_chars (names : List String) : List Char :=
  if names = [] then ['/'] else (names.map (fun n => '/' :: n.data)).flatten

/-- The absolute path whose elements are the given names. -/
def absolute (names : List String) : path := ⟨String.mk (absolute_chars names)⟩

/-- A file or directory name: not empty and without a separator. -/
def filename_ok (n : String) : Bool :=
  !n.data.isEmpty && n.data.all (fun c => !path.is_separator c)

/-- The ancestor directories of a path: `ancestor b 0` is the directory that
contains b, `ancestor b (k + 1)` is the parent of `ancestor b k`. -/
def ancestor (b : path) : Nat → path
  | 0 => b.parent_path
  | k + 1 => (ancestor b k).parent_path

/-! ## Exceptions, events and the state of the process -/

/-- An exception in flight, classified by the first handler of the catch chains
of main.cpp that takes it, with the text that describes the failure. -/
inductive Exn where
  /-- An fc::exception; the text is `e.to_detail_string()`. -/
  | fc_exception (detail : String)
  /-- A boost::exception; the text is `boost::diagnostic_information(e)`. -/
  | boost_exception (diagnostic : String)
  /-- A std::exception; the text is `e.what()`. -/
  | std_exception (what : String)
  /-- Anything else, taken by `catch (...)` only; the text renders the thrown
  object, which such a handler cannot read. -/
  | other (thrown : String)
deriving DecidableEq, Repr

/-- The text that describes a failure. -/
def Exn.detail : Exn → String
  | .fc_exception d => d
  | .boost_exception d => d
  | .std_exception d => d
  | .other d => d

/-- The severities used by main.cpp: `ilog` and `elog`. -/
inductive Severity where
  | info
  | error
deriving DecidableEq, Repr

/-- What the program does that its collaborators can observe, in order. -/
inductive Event where
  /-- A line handed to the logger by `ilog` or `elog`, after formatting. -/
  | log (level : Severity) (message : String)
  /-- The call app().set_version(v). -/
  | set_version (v : Nat)
  /-- The call app().set_default_data_dir(p). -/
  | set_default_data_dir (p : path)
  /-- The call app().set_default_config_dir(p). -/
  | set_default_config_dir (p : path)
  /-- The call app().initialize of chain_plugin, http_plugin, net_plugin. -/
  | initialize_subsystems
  /-- The call fc::configure_logging(config_path). -/
  | configure_logging (config_path : path)
  /-- The call of initialize(app().get_io_service()) on the appender of that name. -/
  | initialize_appender (name : String)
  /-- The call sighup_set->async_wait(handler) on a fresh signal set for SIGHUP. -/
  | async_wait
  /-- The call app().startup(). -/
  | startup
  /-- The call app().exec(). -/
  | exec
deriving DecidableEq, Repr

/-- The state of the process that the claims speak about. -/
structure State where
  /-- The events so far, oldest first. -/
  trace : List Event
  /-- The number of handlers registered by async_wait and not yet invoked. -/
  subscriptions : Nat
deriving DecidableEq, Repr

/-- A computation of the program: from a state, the value returned or the
exception thrown, and the state left behind. -/
def Run (α : Type) : Type := State → Except Exn α × State

/-- Normal return. -/
def Run.pure {α : Type} (a : α) : Run α := fun s => (.ok a, s)

/-- Sequencing: an exception thrown by the first computation skips the second. -/
def Run.bind {α β : Type} (m : Run α) (f : α → Run β) : Run β := fun s =>
  match m s with
  | (.ok a, s1) => f a s1
  | (.error e, s1) => (.error e, s1)

/-- The statement `throw`, also used for the rethrowing `throw;`. -/
def Run.throw {α : Type} (e : Exn) : Run α := fun s => (.error e, s)

/-- The statement `try body catch handler`. -/
def Run.try_catch {α : Type} (body : Run α) (handler : Exn → Run α) : Run α := fun s =>
  match body s with
  | (.ok a, s1) => (.ok a, s1)
  | (.error e, s1) => handler e s1

instance : Monad Run where
  pure := Run.pure
  bind := Run.bind

/-- One event is appended to the trace. -/
def emit (e : Event) : Run Unit := fun s => (.ok (), { s with trace := s.trace ++ [e] })

/-- The end of a call of a collaborator: it returns, or throws what the world
has it throw. -/
def finish (outcome : Option Exn) : Run Unit :=
  match outcome with
  | none => Run.pure ()
  | some e => Run.throw e

/-- A call of a collaborator: the call is recorded, then it returns or throws. -/
def call (e : Event) (outcome : Option Exn) : Run Unit := do
  emit e
  finish outcome

/-- The statement `ilog(message)`. -/
def ilog (message : String) : Run Unit := emit (.log .info message)

/-- The statement `elog(message)`. -/
def elog (message : String) : Run Unit := emit (.log .error message)

/-! ## The collaborators -/

/-- An entry of the registry fc::get_appender_map(). -/
structure Appender where
  /-- The key of the entry. -/
  name : String
  /-- What the appender throws when it is initialised, if anything. -/
  fails : Option Exn

/-- What the logging collaborators answer during one load of the configuration. -/
structure Logging where
  /-- The value of app().get_logging_conf(). -/
  logging_conf : path
  /-- The value of fc::exists(config_path). -/
  conf_exists : Bool
  /-- What fc::configure_logging(config_path) throws, if anything. -/
  load : Option Exn
  /-- The registry fc::get_appender_map() as the loop over it finds it. -/
  appender_map : List Appender

/-- One delivery of SIGHUP to the handler registered by async_wait. -/
structure Signal extends Logging where
  /-- Whether the error code handed to the handler is set. -/
  err : Bool

/-- The world in which main runs. -/
structure World where
  /-- The environment read by determine_root_directory. -/
  env : Env
  /-- The constant eosio::nodeos::config::version of config.hpp. -/
  version : Nat
  /-- The function eosio::nodeos::config::itoh of config.hpp. -/
  itoh : Nat → String
  /-- What app().set_version throws, if anything. -/
  set_version : Option Exn
  /-- What app().set_default_data_dir throws, if anything. -/
  set_default_data_dir : Option Exn
  /-- What app().set_default_config_dir throws, if anything. -/
  set_default_config_dir : Option Exn
  /-- What the call app().initialize returns or throws. -/
  initialize_subsystems : Except Exn Bool
  /-- The logging collaborators during initialize_logging. -/
  first_load : Logging
  /-- What app().startup throws, if anything. -/
  startup : Option Exn
  /-- The deliveries of SIGHUP while app().exec runs the event loop. -/
  signals : List Signal
  /-- What app().exec throws once the event loop is over, if anything. -/
  exec : Option Exn

/-! ## The logging functions of main.cpp -/

/-- The function fc::configure_logging, a collaborator. -/
def fc.configure_logging (config_path : path) (outcome : Option Exn) : Run Unit :=
  call (.configure_logging config_path) outcome

/-- The function detail::configure_logging (main.cpp lines 29 to 47). -/
def detail.configure_logging (config_path : path) (outcome : Option Exn) : Run Unit :=
  Run.try_catch
    (Run.try_catch (fc.configure_logging config_path outcome)
      (fun e => do
        elog "Error reloading logging.json"
        Run.throw e))
    (fun e =>
      match e with
      | .fc_exception d => elog d
      | .boost_exception d => elog d
      | .std_exception d => elog d
      | .other _ => Run.pure ())

/-- The loop `for(auto iter : fc::get_appender_map()) iter.second->initialize(...)`. -/
def initialize_appenders : List Appender → Run Unit
  | [] => Run.pure ()
  | a :: rest => do
    call (.initialize_appender a.name) a.fails
    initialize_appenders rest

/-- The body of logging_conf_loop (main.cpp lines 53 to 65): a fresh signal set
is created and the handler is registered on it with async_wait. -/
def logging_conf_loop : Run Unit := fun s =>
  (.ok (), { trace := s.trace ++ [.async_wait], subscriptions := s.subscriptions + 1 })

/-- The handler that logging_conf_loop registers (main.cpp lines 54 to 65). -/
def sighup_handler (sig : Signal) : Run Unit :=
  if !sig.err then do
    ilog "Received HUP.  Reloading logging configuration."
    (if sig.conf_exists then detail.configure_logging sig.logging_conf sig.load
      else Run.pure ())
    initialize_appenders sig.appender_map
    logging_conf_loop
  else Run.pure ()

/-- The function initialize_logging (main.cpp lines 68 to 77). -/
def initialize_logging (l : Logging) : Run Unit := do
  (if l.conf_exists then fc.configure_logging l.logging_conf l.load
    else Run.pure ())
  initialize_appenders l.appender_map
  logging_conf_loop

/-- The event loop hands one SIGHUP to a registered handler, which it removes
from the signal set first; without a registered handler nothing runs. -/
def deliver (sig : Signal) : Run Unit := fun s =>
  if s.subscriptions = 0 then (.ok (), s)
  else sighup_handler sig { s with subscriptions := s.subscriptions - 1 }

/-- The event loop hands the signals over in order; an exception that leaves a
handler leaves the loop. -/
def deliver_all : List Signal → Run Unit
  | [] => Run.pure ()
  | sig :: rest => do
    deliver sig
    deliver_all rest

/-! ## The function main -/

/-- The call app().exec(): the event loop runs the handlers of the signals
delivered, then the call returns or throws. -/
def app_exec (w : World) : Run Unit := do
  emit .exec
  deliver_all w.signals
  finish w.exec

/-- The statements of the try block of main that follow a successful
app().initialize (main.cpp lines 109 to 113), with the value of `root`. -/
def main_initialized (w : World) (root : path) : Run (Option Int) := do
  initialize_logging w.first_load
  ilog ("nodeos version " ++ w.itoh (w.version % 4294967296))
  ilog ("eosio root is " ++ root.string)
  call .startup w.startup
  app_exec w
  Run.pure none

/-- The try block of main (main.cpp lines 103 to 113); the value is the code of
the `return` statement inside the block when that one is reached. -/
def main_try (w : World) : Run (Option Int) := do
  call (.set_version w.version) w.set_version
  let root := determine_root_directory w.env
  call (.set_default_data_dir (root / ⟨"var/lib/eosio/node_00"⟩)) w.set_default_data_dir
  call (.set_default_config_dir (root / ⟨"etc/eosio/node_00"⟩)) w.set_default_config_dir
  emit .initialize_subsystems
  match w.initialize_subsystems with
  | .error e => Run.throw e
  | .ok false => Run.pure (some (-1))
  | .ok true => main_initialized w root

/-- The catch chain of main (main.cpp lines 114 to 122). -/
def main_catch (e : Exn) : Run Unit :=
  match e with
  | .fc_exception d => elog d
  | .boost_exception d => elog d
  | .std_exception d => elog d
  | .other _ => elog "unknown exception"

/-- The function main (main.cpp lines 100 to 124): the try block, the catch
chain, and `return 0` when the try block did not return. -/
def main (w : World) : Run Int := do
  let returned ← Run.try_catch (main_try w) (fun e => do
    main_catch e
    Run.pure none)
  match returned with
  | some code => Run.pure code
  | none => Run.pure 0

/-- The state in which the process starts. -/
def State.initial : State := ⟨[], 0⟩

/-- The error lines of a trace, in order. -/
def error_lines : List Event → List String
  | [] => []
  | .log .error m :: t => m :: error_lines t
  | _ :: t => error_lines t

/-! ## Definitions used to state the properties -/

/-- A computation only appends to the trace, and only events that satisfy P. -/
def Emits {α : Type} (P : Event → Prop) (m : Run α) : Prop :=
  ∀ s, ∃ extra, (m s).2.trace = s.trace ++ extra ∧ ∀ e ∈ extra, P e

/-- The events that a run of main in the world w can produce. -/
def main_event (w : World) (e : Event) : Prop :=
  e = .set_version w.version
  ∨ e = .set_default_data_dir (determine_root_directory w.env / ⟨"var/lib/eosio/node_00"⟩)
  ∨ e = .set_default_config_dir (determine_root_directory w.env / ⟨"etc/eosio/node_00"⟩)
  ∨ e = .initialize_subsystems
  ∨ e = .startup
  ∨ e = .exec
  ∨ e = .async_wait
  ∨ (∃ p, e = .configure_logging p)
  ∨ (∃ n, e = .initialize_appender n)
  ∨ (∃ m, e = .log .error m)
  ∨ e = .log .info ("nodeos version " ++ w.itoh (w.version % 4294967296))
  ∨ e = .log .info ("eosio root is " ++ (determine_root_directory w.env).string)
  ∨ e = .log .info "Received HUP.  Reloading logging configuration."

/-! ## Worlds used as concrete inputs -/

/-- The binary is /opt/app/bin/node, /opt/app/etc exists, no variable is set. -/
def example_env : Env where
  getenv := fun _ => none
  program_location := ⟨"/opt/app/bin/node"⟩
  fs_exists := fun p => decide (p = ⟨"/opt/app/etc"⟩)

/-- As example_env, with EOSIO_ROOT set to the given value. -/
def override_env (v : String) : Env :=
  { example_env with getenv := fun n => if n = "EOSIO_ROOT" then some v else none }

/-- A world in which no collaborator fails: the logging configuration is the
given one, two appenders are registered, and the signals are delivered
during exec. -/
def example_world (first_load : Logging) (signals : List Signal) : World where
  env := example_env
  version := 1
  itoh := fun n => toString n
  set_version := none
  set_default_data_dir := none
  set_default_config_dir := none
  initialize_subsystems := .ok true
  first_load := first_load
  startup := none
  signals := signals
  exec := none

/-- The appender registry of the examples. -/
def example_appenders : List Appender := [⟨"stderr", none⟩, ⟨"net", none⟩]

/-- A logging configuration file that is absent. -/
def absent_conf : Logging :=
  ⟨⟨"/opt/app/etc/eosio/node_00/logging.json"⟩, false, none, example_appenders⟩

/-- A logging configuration file whose load fails with the given exception. -/
def failing_conf (e : Exn) : Logging :=
  ⟨⟨"/opt/app/etc/eosio/node_00/logging.json"⟩, true, some e, example_appenders⟩

theorem skip_separators_of_not_separator (c : Char) (t : List Char)
    (hc : path.is_separator c = false) : path.skip_separators (c :: t) = c :: t := by
  cases t with
  | nil => rfl
  | cons d t => simp [path.skip_separators, hc]

theorem drop_filename_name (n rest : List Char) (hne : n ≠ [])
    (hn : ∀ c ∈ n, path.is_separator c = false) :
    path.drop_filename (n.reverse ++ '/' :: rest) = '/' :: rest := by
  have hdw : ∀ l : List Char, (∀ c ∈ l, path.is_separator c = false) →
      List.dropWhile (fun x => !path.is_separator x) (l ++ '/' :: rest) = '/' :: rest := by
    intro l hl
    induction l with
    | nil => simp [path.is_separator]
    | cons a l ih =>
      have ha := hl a (List.mem_cons_self a l)
      simp only [List.cons_append]
      rw [List.dropWhile_cons_of_pos (by simp [ha])]
      exact ih (fun c hc => hl c (List.mem_cons_of_mem a hc))
  have hrev : ∀ c ∈ n.reverse, path.is_separator c = false := by
    intro c hc
    exact hn c (List.mem_reverse.mp hc)
  cases hr : n.reverse with
  | nil => simp at hr; exact absurd hr hne
  | cons a l =>
    rw [hr] at hrev
    have ha := hrev a (List.mem_cons_self a l)
    simp only [List.cons_append, path.drop_filename, ha]
    have := hdw (a :: l) hrev
    simpa using this

theorem join_names_snoc (ns : List String) (n : String) :
    ((ns ++ [n]).map (fun n => '/' :: n.data)).flatten
      = (ns.map (fun n => '/' :: n.data)).flatten ++ '/' :: n.data := by
  simp

theorem filename_ok_iff (n : String) :
    filename_ok n = true ↔ n.data ≠ [] ∧ ∀ c ∈ n.data, path.is_separator c = false := by
  simp [filename_ok, List.isEmpty_iff]

theorem absolute_chars_snoc_reverse (ns : List String) (n : String) :
    (absolute_chars (ns ++ [n])).reverse
      = n.data.reverse ++ '/' :: ((ns.map (fun n => '/' :: n.data)).flatten).reverse := by
  simp [absolute_chars]

theorem parent_path_absolute_snoc (ns : List String) (n : String)
    (hns : ∀ m ∈ ns, filename_ok m = true) (hn : filename_ok n = true) :
    (absolute (ns ++ [n])).parent_path = absolute ns := by
  obtain ⟨hne, hsep⟩ := (filename_ok_iff n).mp hn
  simp only [path.parent_path, absolute, absolute_chars_snoc_reverse]
  rw [drop_filename_name n.data _ hne hsep]
  congr 2
  rcases List.eq_nil_or_concat ns with h | ⟨ms, m, h⟩
  · subst h
    simp [absolute_chars, path.skip_separators]
  · subst h
    obtain ⟨hme, hmsep⟩ := (filename_ok_iff m).mp (hns m (by simp))
    have hmr : m.data.reverse ≠ [] := by simpa using hme
    obtain ⟨x, t, hx⟩ := List.exists_cons_of_ne_nil hmr
    have hxs : path.is_separator x = false := by
      apply hmsep
      rw [← List.mem_reverse, hx]
      exact List.mem_cons_self x t
    simp only [List.concat_eq_append, join_names_snoc, List.reverse_append, List.reverse_cons, hx,
      List.append_assoc, List.cons_append, List.nil_append, List.singleton_append]
    have hsl : path.is_separator '/' = true := rfl
    simp only [path.skip_separators, hsl, if_true]
    rw [skip_separators_of_not_separator x _ hxs]
    have hm : m.data = t.reverse ++ [x] := by
      rw [← List.reverse_reverse m.data, hx]; simp
    simp [absolute_chars, hm]

theorem root_directory_absolute (ns : List String) :
    (absolute ns).root_directory = ⟨"/"⟩ := by
  cases ns with
  | nil => rfl
  | cons n ns => simp [absolute, absolute_chars, path.root_directory, path.is_separator]

theorem absolute_snoc_ne_root (ns : List String) (n : String) (hn : filename_ok n = true) :
    absolute (ns ++ [n]) ≠ ⟨"/"⟩ := by
  obtain ⟨hne, _⟩ := (filename_ok_iff n).mp hn
  intro h
  have hlen := congrArg (fun p : path => p.m_pathname.data.reverse.length) h
  simp only [absolute, absolute_chars_snoc_reverse] at hlen
  have hnl : 0 < n.data.length := List.length_pos.mpr hne
  have h1 : ("/" : String).data.reverse.length = 1 := rfl
  rw [h1] at hlen
  simp only [List.length_append, List.length_reverse, List.length_cons] at hlen
  omega

theorem walk_absolute_snoc (fs_exists : path → Bool) (root : path) (ns : List String)
    (n : String) (hns : ∀ m ∈ ns, filename_ok m = true) (hn : filename_ok n = true) :
    walk fs_exists root (absolute (ns ++ [n]))
      = if fs_exists (absolute ns / ⟨"etc"⟩) then (absolute ns, absolute ns)
        else walk fs_exists root (absolute ns) := by
  rw [walk]
  simp only [root_directory_absolute, parent_path_absolute_snoc ns n hns hn]
  rw [if_pos (absolute_snoc_ne_root ns n hn)]

theorem ancestor_succ (b : path) (k : Nat) :
    ancestor b (k + 1) = ancestor b.parent_path k := by
  induction k with
  | zero => rfl
  | succ k ih => simp only [ancestor] at ih ⊢; rw [ih]

theorem parent_path_absolute (names : List String) (hok : ∀ n ∈ names, filename_ok n = true)
    (hne : names ≠ []) : (absolute names).parent_path = absolute names.dropLast := by
  rcases List.eq_nil_or_concat names with h | ⟨ns, n, h⟩
  · exact absurd h hne
  · subst h
    rw [List.concat_eq_append] at hok ⊢
    rw [parent_path_absolute_snoc ns n (fun m hm => hok m (by simp [hm])) (hok n (by simp)),
      List.dropLast_concat]

/-- The ancestor k of an absolute location is the absolute path of its element
names without the last k + 1 of them. -/
theorem ancestor_absolute (names : List String) (hok : ∀ n ∈ names, filename_ok n = true) :
    ∀ k, k < names.length →
      ancestor (absolute names) k = absolute (names.take (names.length - 1 - k)) := by
  intro k
  induction k with
  | zero =>
    intro hk
    rw [ancestor, parent_path_absolute names hok (by intro h; simp [h] at hk),
      List.dropLast_eq_take]
    rfl
  | succ k ih =>
    intro hk
    have hlen : (names.take (names.length - 1 - k)).length = names.length - 1 - k := by
      rw [List.length_take]; omega
    rw [ancestor, ih (by omega), parent_path_absolute _
      (fun n hn => hok n (List.mem_of_mem_take hn))
      (by intro h; rw [h] at hlen; simp at hlen; omega),
      List.dropLast_eq_take, hlen, List.take_take]
    congr 2
    omega

/-- The loop on an absolute location whose nearest ancestor with an `etc` entry
is the ancestor N: it is left by `break` with both variables at that ancestor. -/
theorem walk_finds_nearest (fs_exists : path → Bool) (root : path) :
    ∀ (N : Nat) (names : List String), (∀ n ∈ names, filename_ok n = true) →
      N < names.length →
      fs_exists (ancestor (absolute names) N / ⟨"etc"⟩) = true →
      (∀ k < N, fs_exists (ancestor (absolute names) k / ⟨"etc"⟩) = false) →
      walk fs_exists root (absolute names)
        = (ancestor (absolute names) N, ancestor (absolute names) N) := by
  intro N
  induction N with
  | zero =>
    intro names hok hN hetc _
    rcases List.eq_nil_or_concat names with h | ⟨ns, n, h⟩
    · subst h; simp at hN
    · subst h
      rw [List.concat_eq_append] at hok hetc ⊢
      have hns : ∀ m ∈ ns, filename_ok m = true := fun m hm => hok m (by simp [hm])
      have hn : filename_ok n = true := hok n (by simp)
      rw [walk_absolute_snoc fs_exists root ns n hns hn]
      simp only [ancestor, parent_path_absolute_snoc ns n hns hn] at hetc ⊢
      rw [if_pos hetc]
  | succ N ih =>
    intro names hok hN hetc hnone
    rcases List.eq_nil_or_concat names with h | ⟨ns, n, h⟩
    · subst h; simp at hN
    · subst h
      rw [List.concat_eq_append] at hok hetc hnone hN ⊢
      have hns : ∀ m ∈ ns, filename_ok m = true := fun m hm => hok m (by simp [hm])
      have hn : filename_ok n = true := hok n (by simp)
      have h0 := hnone 0 (Nat.succ_pos N)
      rw [walk_absolute_snoc fs_exists root ns n hns hn]
      simp only [ancestor, parent_path_absolute_snoc ns n hns hn] at h0
      rw [if_neg (by simp [h0])]
      simp only [ancestor_succ, parent_path_absolute_snoc ns n hns hn] at hetc ⊢
      apply ih ns hns (by simpa using hN) hetc
      intro k hk
      have := hnone (k + 1) (by omega)
      simpa only [ancestor_succ, parent_path_absolute_snoc ns n hns hn] using this

theorem emits_pure {α : Type} (P : Event → Prop) (a : α) : Emits P (Run.pure a) := by
  intro s; exact ⟨[], by simp [Run.pure], by simp⟩

theorem emits_throw {α : Type} (P : Event → Prop) (e : Exn) :
    Emits P (Run.throw e : Run α) := by
  intro s; exact ⟨[], by simp [Run.throw], by simp⟩

theorem emits_bind {α β : Type} (P : Event → Prop) (m : Run α) (f : α → Run β)
    (hm : Emits P m) (hf : ∀ a, Emits P (f a)) : Emits P (Run.bind m f) := by
  intro s
  obtain ⟨x1, h1, p1⟩ := hm s
  simp only [Run.bind]
  rcases hms : m s with ⟨r, s1⟩
  rw [hms] at h1
  cases r with
  | error e => exact ⟨x1, h1, p1⟩
  | ok a =>
    obtain ⟨x2, h2, p2⟩ := hf a s1
    refine ⟨x1 ++ x2, ?_, ?_⟩
    · simp only at h1 ⊢; rw [h2, h1, List.append_assoc]
    · intro e he
      rcases List.mem_append.mp he with h | h
      · exact p1 e h
      · exact p2 e h

theorem emits_try_catch {α : Type} (P : Event → Prop) (m : Run α) (f : Exn → Run α)
    (hm : Emits P m) (hf : ∀ e, Emits P (f e)) : Emits P (Run.try_catch m f) := by
  intro s
  obtain ⟨x1, h1, p1⟩ := hm s
  simp only [Run.try_catch]
  rcases hms : m s with ⟨r, s1⟩
  rw [hms] at h1
  cases r with
  | ok a => exact ⟨x1, h1, p1⟩
  | error e =>
    obtain ⟨x2, h2, p2⟩ := hf e s1
    refine ⟨x1 ++ x2, ?_, ?_⟩
    · simp only at h1 ⊢; rw [h2, h1, List.append_assoc]
    · intro e he
      rcases List.mem_append.mp he with h | h
      · exact p1 e h
      · exact p2 e h

theorem emits_emit (P : Event → Prop) (e : Event) (h : P e) : Emits P (emit e) := by
  intro s; exact ⟨[e], by simp [emit], by simpa using h⟩

theorem emits_finish (P : Event → Prop) (o : Option Exn) : Emits P (finish o) := by
  cases o with
  | none => exact emits_pure P ()
  | some e => exact emits_throw P e

theorem emits_call (P : Event → Prop) (e : Event) (o : Option Exn) (h : P e) :
    Emits P (call e o) :=
  emits_bind P _ _ (emits_emit P e h) (fun _ => emits_finish P o)

theorem emits_logging_conf_loop (P : Event → Prop) (h : P .async_wait) :
    Emits P logging_conf_loop := by
  intro s; exact ⟨[.async_wait], by simp [logging_conf_loop], by simpa using h⟩

theorem emits_initialize_appenders (P : Event → Prop)
    (h : ∀ n, P (.initialize_appender n)) (l : List Appender) :
    Emits P (initialize_appenders l) := by
  induction l with
  | nil => exact emits_pure P ()
  | cons a rest ih => exact emits_bind P _ _ (emits_call P _ _ (h a.name)) (fun _ => ih)

theorem emits_detail_configure_logging (P : Event → Prop)
    (hc : ∀ p, P (.configure_logging p)) (he : ∀ m, P (.log .error m))
    (config_path : path) (o : Option Exn) :
    Emits P (detail.configure_logging config_path o) := by
  apply emits_try_catch
  · apply emits_try_catch
    · exact emits_call P _ _ (hc _)
    · intro e
      exact emits_bind P _ _ (emits_emit P _ (he _)) (fun _ => emits_throw P e)
  · intro e
    cases e with
    | other t => exact emits_pure P ()
    | _ => exact emits_emit P _ (he _)

theorem emits_sighup_handler (P : Event → Prop)
    (hh : P (.log .info "Received HUP.  Reloading logging configuration."))
    (hc : ∀ p, P (.configure_logging p)) (he : ∀ m, P (.log .error m))
    (hi : ∀ n, P (.initialize_appender n)) (ha : P .async_wait) (sig : Signal) :
    Emits P (sighup_handler sig) := by
  unfold sighup_handler
  split
  · apply emits_bind P _ _ (emits_emit P _ hh)
    intro _
    apply emits_bind
    · split
      · exact emits_detail_configure_logging P hc he _ _
      · exact emits_pure P _
    · intro _
      exact emits_bind P _ _ (emits_initialize_appenders P hi _)
        (fun _ => emits_logging_conf_loop P ha)
  · exact emits_pure P ()

theorem emits_deliver_all (P : Event → Prop)
    (hh : P (.log .info "Received HUP.  Reloading logging configuration."))
    (hc : ∀ p, P (.configure_logging p)) (he : ∀ m, P (.log .error m))
    (hi : ∀ n, P (.initialize_appender n)) (ha : P .async_wait) (sigs : List Signal) :
    Emits P (deliver_all sigs) := by
  induction sigs with
  | nil => exact emits_pure P ()
  | cons sig rest ih =>
    apply emits_bind P _ _ _ (fun _ => ih)
    intro s
    simp only [deliver]
    split
    · exact ⟨[], by simp, by simp⟩
    · exact emits_sighup_handler P hh hc he hi ha sig _

/-! ## The logging functions -/

theorem detail_configure_logging_eq (config_path : path) (outcome : Option Exn) (s : State) :
    detail.configure_logging config_path outcome s
      = (.ok (), ⟨s.trace ++ .configure_logging config_path ::
          (match outcome with
           | none => []
           | some (.other _) => [.log .error "Error reloading logging.json"]
           | some e => [.log .error "Error reloading logging.json", .log .error e.detail]),
          s.subscriptions⟩) := by
  cases outcome with
  | none =>
    simp [detail.configure_logging, fc.configure_logging, call, emit, finish, Run.try_catch,
      bind, Run.bind, Run.pure]
  | some e =>
    cases e <;>
    simp [detail.configure_logging, fc.configure_logging, call, emit, finish, Run.try_catch,
      bind, Run.bind, Run.pure, Run.throw, elog, Exn.detail]

theorem initialize_logging_throws (l : Logging) (e : Exn) (hex : l.conf_exists = true)
    (hload : l.load = some e) (s : State) :
    initialize_logging l s
      = (.error e, ⟨s.trace ++ [.configure_logging l.logging_conf], s.subscriptions⟩) := by
  simp [initialize_logging, hex, hload, bind, Run.bind, fc.configure_logging, call, emit,
    finish, Run.throw]

theorem emits_initialize_logging (P : Event → Prop)
    (hc : ∀ p, P (.configure_logging p)) (hi : ∀ n, P (.initialize_appender n))
    (ha : P .async_wait) (l : Logging) : Emits P (initialize_logging l) := by
  unfold initialize_logging
  apply emits_bind
  · split
    · exact emits_call P _ _ (hc _)
    · exact emits_pure P _
  · intro _
    exact emits_bind P _ _ (emits_initialize_appenders P hi _)
      (fun _ => emits_logging_conf_loop P ha)

theorem emits_main_initialized (w : World) :
    Emits (main_event w) (main_initialized w (determine_root_directory w.env)) := by
  have hc : ∀ p, main_event w (.configure_logging p) := fun p => by simp [main_event]
  have hi : ∀ n, main_event w (.initialize_appender n) := fun n => by simp [main_event]
  have he : ∀ m, main_event w (.log .error m) := fun m => by simp [main_event]
  have ha : main_event w .async_wait := by simp [main_event]
  have hh : main_event w (.log .info "Received HUP.  Reloading logging configuration.") := by
    simp [main_event]
  unfold main_initialized
  apply emits_bind _ _ _ (emits_initialize_logging _ hc hi ha _)
  intro _
  apply emits_bind _ _ _ (emits_emit _ _ (by simp [main_event]))
  intro _
  apply emits_bind _ _ _ (emits_emit _ _ (by simp [main_event]))
  intro _
  apply emits_bind _ _ _ (emits_call _ _ _ (by simp [main_event]))
  intro _
  apply emits_bind
  · unfold app_exec
    apply emits_bind _ _ _ (emits_emit _ _ (by simp [main_event]))
    intro _
    exact emits_bind _ _ _ (emits_deliver_all _ hh hc he hi ha _) (fun _ => emits_finish _ _)
  · intro _
    exact emits_pure _ _

theorem emits_main (w : World) : Emits (main_event w) (main w) := by
  unfold main
  apply emits_bind
  · apply emits_try_catch
    · unfold main_try
      apply emits_bind _ _ _ (emits_call _ _ _ (by simp [main_event]))
      intro _
      apply emits_bind _ _ _ (emits_call _ _ _ (by simp [main_event]))
      intro _
      apply emits_bind _ _ _ (emits_call _ _ _ (by simp [main_event]))
      intro _
      apply emits_bind _ _ _ (emits_emit _ _ (by simp [main_event]))
      intro _
      split
      · exact emits_throw _ _
      · exact emits_pure _ _
      · exact emits_main_initialized w
    · intro e
      apply emits_bind
      · cases e <;> exact emits_emit _ _ (by simp [main_event])
      · intro _
        exact emits_pure _ _
  · intro r
    cases r <;> exact emits_pure _ _

theorem main_eq (w : World) (s : State) :
    main w s =
      match Run.try_catch (main_try w) (fun e => do
          main_catch e
          Run.pure none) s with
      | (.ok (some code), s1) => (.ok code, s1)
      | (.ok none, s1) => (.ok 0, s1)
      | (.error e, s1) => (.error e, s1) := by
  simp only [main, bind, Run.bind, Run.pure]
  split <;> rename_i hm <;> simp only [hm]
  split <;> rfl

/-- Whatever happens, main returns; the code is the one of the `return` inside
the try block when that one is reached, and 0 otherwise. -/
theorem main_code (w : World) (s : State) :
    (main w s).1 = (match (main_try w s).1 with
      | .ok (some code) => .ok code
      | _ => .ok 0) := by
  rw [main_eq]
  simp only [Run.try_catch]
  rcases hm : main_try w s with ⟨r, s1⟩
  cases r with
  | ok a => cases a <;> simp
  | error e => cases e <;> simp [main_catch, elog, emit, bind, Run.bind, Run.pure]

theorem main_initialized_value (w : World) (root : path) (s : State) (c : Int) :
    (main_initialized w root s).1 ≠ .ok (some c) := by
  intro h
  simp only [main_initialized, bind, Run.bind, Run.pure] at h
  repeat' split at h
  all_goals simp at h

theorem main_try_value (w : World) (s : State) (c : Int)
    (h : (main_try w s).1 = .ok (some c)) :
    c = -1 ∧ w.set_version = none ∧ w.set_default_data_dir = none
      ∧ w.set_default_config_dir = none ∧ w.initialize_subsystems = .ok false := by
  rcases h1 : w.set_version with _ | e1
  · rcases h2 : w.set_default_data_dir with _ | e2
    · rcases h3 : w.set_default_config_dir with _ | e3
      · rcases h4 : w.initialize_subsystems with e4 | b
        · simp [main_try, call, emit, finish, bind, Run.bind, Run.pure, Run.throw, h1, h2, h3,
            h4] at h
        · cases b with
          | false =>
            simp [main_try, call, emit, finish, bind, Run.bind, Run.pure, Run.throw, h1, h2, h3,
              h4] at h
            simp [h]
          | true =>
            exfalso
            simp only [main_try, call, emit, finish, bind, Run.bind, Run.pure, Run.throw, h1, h2,
              h3, h4] at h
            exact main_initialized_value w _ _ c h
      · simp [main_try, call, emit, finish, bind, Run.bind, Run.pure, Run.throw, h1, h2, h3] at h
    · simp [main_try, call, emit, finish, bind, Run.bind, Run.pure, Run.throw, h1, h2] at h
  · simp [main_try, call, emit, finish, bind, Run.bind, Run.pure, Run.throw, h1] at h

theorem main_early_return (w : World) (s : State) (h1 : w.set_version = none)
    (h2 : w.set_default_data_dir = none) (h3 : w.set_default_config_dir = none)
    (h4 : w.initialize_subsystems = .ok false) :
    main w s = (.ok (-1), ⟨s.trace ++ [.set_version w.version,
      .set_default_data_dir (determine_root_directory w.env / ⟨"var/lib/eosio/node_00"⟩),
      .set_default_config_dir (determine_root_directory w.env / ⟨"etc/eosio/node_00"⟩),
      .initialize_subsystems], s.subscriptions⟩) := by
  rw [main_eq]
  simp [main_try, call, emit, finish, bind, Run.bind, Run.pure, Run.try_catch, h1, h2, h3, h4]

theorem main_started (w : World) (s : State) (h1 : w.set_version = none)
    (h2 : w.set_default_data_dir = none) (h3 : w.set_default_config_dir = none)
    (h4 : w.initialize_subsystems = .ok true) :
    ∃ extra, (main w s).2.trace = s.trace ++ [.set_version w.version,
      .set_default_data_dir (determine_root_directory w.env / ⟨"var/lib/eosio/node_00"⟩),
      .set_default_config_dir (determine_root_directory w.env / ⟨"etc/eosio/node_00"⟩),
      .initialize_subsystems] ++ extra := by
  obtain ⟨x, hx, _⟩ := emits_main_initialized w
    ⟨s.trace ++ [.set_version w.version]
      ++ [.set_default_data_dir (determine_root_directory w.env / ⟨"var/lib/eosio/node_00"⟩)]
      ++ [.set_default_config_dir (determine_root_directory w.env / ⟨"etc/eosio/node_00"⟩)]
      ++ [.initialize_subsystems], s.subscriptions⟩
  rw [main_eq]
  simp only [main_try, call, emit, finish, bind, Run.bind, Run.pure, Run.try_catch, h1, h2, h3,
    h4]
  rcases hm : main_initialized w _ _ with ⟨r, s5⟩
  rw [hm] at hx
  simp only at hx
  cases r with
  | ok a =>
    refine ⟨x, ?_⟩
    cases a <;> simp [hx]
  | error e =>
    refine ⟨x ++ [.log .error (match e with
      | .other _ => "unknown exception"
      | e => e.detail)], ?_⟩
    cases e <;> simp [main_catch, elog, emit, hx, Exn.detail]

/-! ## The root resolver -/

theorem determine_root_directory_of_override (env : Env) (v : String)
    (hset : env.getenv "EOSIO_ROOT" = some v) : determine_root_directory env = ⟨v⟩ := by
  simp [determine_root_directory, hset]

theorem determine_root_directory_of_nearest (env : Env) (names : List String) (N : Nat)
    (hunset : env.getenv "EOSIO_ROOT" = none)
    (hloc : env.program_location = absolute names)
    (hnames : ∀ n ∈ names, filename_ok n = true)
    (hN : N < names.length)
    (hetc : env.fs_exists (ancestor env.program_location N / ⟨"etc"⟩) = true)
    (hnone : ∀ k < N, env.fs_exists (ancestor env.program_location k / ⟨"etc"⟩) = false) :
    determine_root_directory env = ancestor env.program_location N := by
  rw [hloc] at hetc hnone ⊢
  simp only [determine_root_directory, hunset, hloc,
    walk_finds_nearest env.fs_exists ⟨""⟩ N names hnames hN hetc hnone]
  simp

theorem determine_root_directory_example :
    determine_root_directory example_env = ⟨"/opt/app"⟩ :=
  (determine_root_directory_of_nearest example_env ["opt", "app", "bin", "node"] 1
    rfl (by decide) (by decide) (by decide) (by decide) (by decide)).trans (by decide)

/-! ## The claims -/

/-- C1: when EOSIO_ROOT is set to a non-empty value v, determine_root_directory
returns the path whose pathname is exactly v: nothing is normalised, nothing is
looked up on the file system, and neither the location of the binary nor the
directories that hold an `etc` entry matter (the environment is arbitrary). -/
theorem determine_root_directory_override (env : Env) (v : String) (_hv : v ≠ "")
    (hset : env.getenv "EOSIO_ROOT" = some v) :
    determine_root_directory env = ⟨v⟩ ∧ (determine_root_directory env).string = v := by
  rw [determine_root_directory_of_override env v hset]
  exact ⟨rfl, rfl⟩

/-- Witness of C1: an override that is neither absolute nor normalised, in a
world whose binary has an ancestor with an `etc` entry. -/
theorem determine_root_directory_override_witness :
    "relative/./root//" ≠ ""
      ∧ (override_env "relative/./root//").getenv "EOSIO_ROOT" = some "relative/./root//"
      ∧ (determine_root_directory (override_env "relative/./root//")).string
          = "relative/./root//" :=
  ⟨by decide, rfl,
    (determine_root_directory_override (override_env "relative/./root//") "relative/./root//"
      (by decide) rfl).2⟩

/-- C2: without override, for the absolute binary path with the element names
`names` and for every N below their number (the ancestors of the binary are
`ancestor b 0`, the directory that contains it, up to `ancestor b (length - 1)`,
the root directory): when `etc` exists under ancestor N and under no ancestor
k < N, determine_root_directory returns exactly ancestor N, which is the
absolute path of the element names without the last N + 1 of them. -/
theorem determine_root_directory_nearest_etc (env : Env) (names : List String) (N : Nat)
    (hunset : env.getenv "EOSIO_ROOT" = none)
    (hloc : env.program_location = absolute names)
    (hnames : ∀ n ∈ names, filename_ok n = true)
    (hN : N < names.length)
    (hetc : env.fs_exists (ancestor env.program_location N / ⟨"etc"⟩) = true)
    (hnone : ∀ k < N, env.fs_exists (ancestor env.program_location k / ⟨"etc"⟩) = false) :
    determine_root_directory env = ancestor env.program_location N
      ∧ ancestor env.program_location N = absolute (names.take (names.length - 1 - N)) := by
  refine ⟨determine_root_directory_of_nearest env names N hunset hloc hnames hN hetc hnone, ?_⟩
  rw [hloc]
  exact ancestor_absolute names hnames N hN

/-- Witness of C2: the binary /opt/app/bin/node with /opt/app/etc present and
/opt/app/bin/etc absent resolves to /opt/app (N = 1). -/
theorem determine_root_directory_nearest_etc_witness :
    example_env.getenv "EOSIO_ROOT" = none
      ∧ example_env.program_location = absolute ["opt", "app", "bin", "node"]
      ∧ example_env.fs_exists (ancestor example_env.program_location 1 / ⟨"etc"⟩) = true
      ∧ example_env.fs_exists (ancestor example_env.program_location 0 / ⟨"etc"⟩) = false
      ∧ ancestor example_env.program_location 1 = ⟨"/opt/app"⟩
      ∧ determine_root_directory example_env = ancestor example_env.program_location 1 :=
  ⟨rfl, by decide, by decide, by decide, by decide,
    (determine_root_directory_nearest_etc example_env ["opt", "app", "bin", "node"] 1
      rfl (by decide) (by decide) (by decide) (by decide) (by decide)).1⟩

/-- C4: main always returns, with code -1 or 0. It returns -1 exactly when the
call app().initialize is reached (the three calls before it returned) and
returns false; in that run the trace holds the four calls up to app().initialize
and nothing else: no log line, no call of the logging functions, of startup or
of exec, and no subscription. In every other run, whatever is thrown and
wherever, main returns 0. -/
theorem main_exit_code (w : World) :
    ((main w State.initial).1 = .ok (-1) ∨ (main w State.initial).1 = .ok 0)
      ∧ ((main w State.initial).1 = .ok (-1)
          ↔ (w.set_version = none ∧ w.set_default_data_dir = none
              ∧ w.set_default_config_dir = none ∧ w.initialize_subsystems = .ok false))
      ∧ ((main w State.initial).1 = .ok (-1) →
          (main w State.initial).2 = ⟨[.set_version w.version,
            .set_default_data_dir (determine_root_directory w.env / ⟨"var/lib/eosio/node_00"⟩),
            .set_default_config_dir (determine_root_directory w.env / ⟨"etc/eosio/node_00"⟩),
            .initialize_subsystems], 0⟩) := by
  have hcode := main_code w State.initial
  have hiff : (main w State.initial).1 = .ok (-1)
      ↔ (w.set_version = none ∧ w.set_default_data_dir = none
          ∧ w.set_default_config_dir = none ∧ w.initialize_subsystems = .ok false) := by
    constructor
    · intro h
      rw [hcode] at h
      rcases hm : (main_try w State.initial).1 with e | a
      · rw [hm] at h; simp at h
      · cases a with
        | none => rw [hm] at h; simp at h
        | some c => exact (main_try_value w State.initial c hm).2
    · rintro ⟨h1, h2, h3, h4⟩
      rw [main_early_return w State.initial h1 h2 h3 h4]
  refine ⟨?_, hiff, ?_⟩
  · rcases hm : (main_try w State.initial).1 with e | a
    · right; rw [hcode, hm]
    · cases a with
      | none => right; rw [hcode, hm]
      | some c =>
        left
        rw [hcode, hm, (main_try_value w State.initial c hm).1]
  · intro h
    obtain ⟨h1, h2, h3, h4⟩ := hiff.mp h
    rw [main_early_return w State.initial h1 h2 h3 h4]
    rfl

/-- Witness of C4: a world in which app().initialize returns false, and one in
which the load of the logging configuration throws. -/
theorem main_exit_code_witness :
    (main { example_world absent_conf [] with initialize_subsystems := .ok false }
        State.initial).1 = .ok (-1)
      ∧ (main (example_world (failing_conf (.std_exception "bad file")) [])
        State.initial).1 = .ok 0 := by
  constructor
  · exact (main_exit_code
      { example_world absent_conf [] with initialize_subsystems := .ok false }).2.1.mpr
      ⟨rfl, rfl, rfl, rfl⟩
  · rcases (main_exit_code (example_world (failing_conf (.std_exception "bad file")) [])).1
      with h | h
    · have := ((main_exit_code
        (example_world (failing_conf (.std_exception "bad file")) [])).2.1.mp h).2.2.2
      simp [example_world] at this
    · exact h

/-- C5, amended: when the calls up to app().initialize return, app().initialize
returns true, the logging configuration path exists and fc::configure_logging
throws e, then e leaves initialize_logging, main returns 0, and its trace is
the four calls, the call of the loader and one error line, logged by the one
handler of the catch chain that takes e; no appender is initialised, nothing is
subscribed, startup and exec are not called. For an fc, boost or std exception
the line is the text that describes the failure; for any other thrown object it
is the fixed text `unknown exception`. -/
theorem main_first_load_failure (w : World) (e : Exn)
    (h1 : w.set_version = none) (h2 : w.set_default_data_dir = none)
    (h3 : w.set_default_config_dir = none) (h4 : w.initialize_subsystems = .ok true)
    (hex : w.first_load.conf_exists = true) (hload : w.first_load.load = some e) :
    (∀ s, (initialize_logging w.first_load s).1 = .error e)
      ∧ main w State.initial = (.ok 0, ⟨[.set_version w.version,
          .set_default_data_dir (determine_root_directory w.env / ⟨"var/lib/eosio/node_00"⟩),
          .set_default_config_dir (determine_root_directory w.env / ⟨"etc/eosio/node_00"⟩),
          .initialize_subsystems,
          .configure_logging w.first_load.logging_conf,
          .log .error (match e with
            | .other _ => "unknown exception"
            | e => e.detail)], 0⟩) := by
  constructor
  · intro s
    rw [initialize_logging_throws w.first_load e hex hload]
  · rw [main_eq]
    simp only [main_try, main_initialized, call, emit, finish, bind, Run.bind, Run.pure,
      Run.try_catch, h1, h2, h3, h4, initialize_logging_throws w.first_load e hex hload,
      State.initial]
    cases e <;> simp [main_catch, elog, emit, Exn.detail]

/-- Witness of C5 as amended: a malformed logging.json reported by an
fc::exception. -/
theorem main_first_load_failure_witness :
    main (example_world (failing_conf (.fc_exception "logging.json: unexpected token")) [])
        State.initial
      = (.ok 0, ⟨[.set_version 1,
          .set_default_data_dir ⟨"/opt/app/var/lib/eosio/node_00"⟩,
          .set_default_config_dir ⟨"/opt/app/etc/eosio/node_00"⟩,
          .initialize_subsystems,
          .configure_logging ⟨"/opt/app/etc/eosio/node_00/logging.json"⟩,
          .log .error "logging.json: unexpected token"], 0⟩) := by
  have h := (main_first_load_failure
    (example_world (failing_conf (.fc_exception "logging.json: unexpected token")) [])
    (.fc_exception "logging.json: unexpected token") rfl rfl rfl rfl rfl rfl).2
  rw [h]
  simp only [example_world, determine_root_directory_example, failing_conf, Exn.detail]
  rfl

/-- Counterexample to C5 as stated: fc::configure_logging throws an object that
only `catch (...)` takes. The one error line of the run is `unknown exception`;
it does not contain the text that describes the failure. -/
theorem main_first_load_failure_unknown_kind :
    error_lines (main (example_world (failing_conf (.other "logging.json: bad level")) [])
        State.initial).2.trace = ["unknown exception"]
      ∧ ¬ ∃ line, error_lines (main
            (example_world (failing_conf (.other "logging.json: bad level")) [])
            State.initial).2.trace = [line]
          ∧ (Exn.other "logging.json: bad level").detail.data <:+: line.data := by
  have h : error_lines (main
      (example_world (failing_conf (.other "logging.json: bad level")) [])
      State.initial).2.trace = ["unknown exception"] := by decide
  refine ⟨h, ?_⟩
  rintro ⟨line, hl, hin⟩
  rw [h] at hl
  injection hl with hl _
  subst hl
  revert hin
  decide

/-- C7: detail::configure_logging returns normally for every configuration path
and every outcome of fc::configure_logging. When the loader throws, of whatever
kind, the line `Error reloading logging.json` is logged at error severity before
the return, followed for an fc, boost or std exception by the text that describes
it; when the loader returns, the call of the loader is the only event and no
error line is logged. -/
theorem configure_logging_swallows (config_path : path) (outcome : Option Exn) (s : State) :
    (detail.configure_logging config_path outcome s).1 = .ok ()
      ∧ (detail.configure_logging config_path outcome s).2.subscriptions = s.subscriptions
      ∧ (detail.configure_logging config_path outcome s).2.trace
          = s.trace ++ .configure_logging config_path ::
            (match outcome with
             | none => []
             | some (.other _) => [.log .error "Error reloading logging.json"]
             | some e => [.log .error "Error reloading logging.json", .log .error e.detail])
      ∧ (outcome = none ↔
          error_lines ((detail.configure_logging config_path outcome s).2.trace.drop
            s.trace.length) = []) := by
  rw [detail_configure_logging_eq]
  refine ⟨rfl, rfl, rfl, ?_⟩
  simp only [List.drop_left]
  rcases outcome with _ | e
  · simp [error_lines]
  · cases e <;> simp [error_lines]

/-- Witness of C7: a load that throws an object of no recognised kind. -/
theorem configure_logging_swallows_witness :
    detail.configure_logging ⟨"/opt/app/etc/eosio/node_00/logging.json"⟩
        (some (.other "logging.json: bad level")) State.initial
      = (.ok (), ⟨[.configure_logging ⟨"/opt/app/etc/eosio/node_00/logging.json"⟩,
          .log .error "Error reloading logging.json"], 0⟩) := by
  obtain ⟨h1, h2, h3, _⟩ := configure_logging_swallows
    ⟨"/opt/app/etc/eosio/node_00/logging.json"⟩ (some (.other "logging.json: bad level"))
    State.initial
  exact Prod.ext h1 (by
    rcases hs : (detail.configure_logging ⟨"/opt/app/etc/eosio/node_00/logging.json"⟩
      (some (.other "logging.json: bad level")) State.initial).2 with ⟨t, n⟩
    rw [hs] at h2 h3
    simp only at h2 h3
    rw [h2, h3]
    rfl)

/-- C9: in every run of main, with r the root that determine_root_directory
returns: every default data directory handed to the application is
`r / "var/lib/eosio/node_00"`, every default config directory handed to it is
`r / "etc/eosio/node_00"` (the same segment `eosio` in both), and every info
line is the version line, the notice of a reload, or the root line, which shows
the pathname of the same r. The data directory is handed over as soon as
set_version returns, the config directory as soon as set_default_data_dir
returns. -/
theorem main_default_directories (w : World) :
    (∀ p, Event.set_default_data_dir p ∈ (main w State.initial).2.trace →
        p = determine_root_directory w.env / ⟨"var/lib/eosio/node_00"⟩)
      ∧ (∀ p, Event.set_default_config_dir p ∈ (main w State.initial).2.trace →
        p = determine_root_directory w.env / ⟨"etc/eosio/node_00"⟩)
      ∧ (∀ m, Event.log .info m ∈ (main w State.initial).2.trace →
        m = "nodeos version " ++ w.itoh (w.version % 4294967296)
          ∨ m = "eosio root is " ++ (determine_root_directory w.env).string
          ∨ m = "Received HUP.  Reloading logging configuration.")
      ∧ (w.set_version = none →
        Event.set_default_data_dir (determine_root_directory w.env / ⟨"var/lib/eosio/node_00"⟩)
          ∈ (main w State.initial).2.trace)
      ∧ (w.set_version = none → w.set_default_data_dir = none →
        Event.set_default_config_dir (determine_root_directory w.env / ⟨"etc/eosio/node_00"⟩)
          ∈ (main w State.initial).2.trace) := by
  obtain ⟨extra, hx, hp⟩ := emits_main w State.initial
  have hx2 : (main w State.initial).2.trace = extra := by simpa [State.initial] using hx
  have hboth : w.set_version = none →
      Event.set_default_data_dir (determine_root_directory w.env / ⟨"var/lib/eosio/node_00"⟩)
          ∈ (main w State.initial).2.trace
        ∧ (w.set_default_data_dir = none →
          Event.set_default_config_dir
            (determine_root_directory w.env / ⟨"etc/eosio/node_00"⟩)
              ∈ (main w State.initial).2.trace) := by
    intro h1
    rcases h2 : w.set_default_data_dir with _ | e2
    · rcases h3 : w.set_default_config_dir with _ | e3
      · rcases h4 : w.initialize_subsystems with e4 | b
        · rw [main_eq]
          cases e4 <;>
          simp [main_try, call, emit, finish, bind, Run.bind, Run.pure, Run.throw,
            Run.try_catch, main_catch, elog, State.initial, h1, h2, h3, h4]
        · cases b with
          | false =>
            rw [main_early_return w State.initial h1 h2 h3 h4]
            simp
          | true =>
            obtain ⟨x, hx⟩ := main_started w State.initial h1 h2 h3 h4
            rw [hx]
            simp
      · rw [main_eq]
        cases e3 <;>
        simp [main_try, call, emit, finish, bind, Run.bind, Run.pure, Run.throw,
          Run.try_catch, main_catch, elog, State.initial, h1, h2, h3]
    · rw [main_eq]
      cases e2 <;>
      simp [main_try, call, emit, finish, bind, Run.bind, Run.pure, Run.throw,
        Run.try_catch, main_catch, elog, State.initial, h1, h2]
  refine ⟨?_, ?_, ?_, fun h1 => (hboth h1).1, fun h1 h2 => (hboth h1).2 h2⟩
  · intro p hmem
    rw [hx2] at hmem
    have := hp _ hmem
    simpa [main_event] using this
  · intro p hmem
    rw [hx2] at hmem
    have := hp _ hmem
    simpa [main_event] using this
  · intro m hmem
    rw [hx2] at hmem
    have := hp _ hmem
    simpa [main_event] using this

/-- Witness of C9: no override, the binary at /opt/app/bin/node, /opt/app/etc
present and /opt/app/bin/etc absent: the root is /opt/app, the default data
directory /opt/app/var/lib/eosio/node_00, the default config directory
/opt/app/etc/eosio/node_00. -/
theorem main_default_directories_witness :
    determine_root_directory (example_world absent_conf []).env = ⟨"/opt/app"⟩
      ∧ Event.set_default_data_dir ⟨"/opt/app/var/lib/eosio/node_00"⟩
          ∈ (main (example_world absent_conf []) State.initial).2.trace
      ∧ Event.set_default_config_dir ⟨"/opt/app/etc/eosio/node_00"⟩
          ∈ (main (example_world absent_conf []) State.initial).2.trace := by
  have h := main_default_directories (example_world absent_conf [])
  have hr : determine_root_directory (example_world absent_conf []).env = ⟨"/opt/app"⟩ :=
    determine_root_directory_example
  rw [hr] at h
  exact ⟨hr, h.2.2.2.1 rfl, h.2.2.2.2 rfl rfl⟩

/-- C10, amended: when EOSIO_ROOT is present with an empty value,
determine_root_directory uses it as it uses any other value: whatever the
location of the binary and the file system, it returns the empty path, which
has no root directory (it is not absolute). -/
theorem determine_root_directory_empty_override (env : Env)
    (hset : env.getenv "EOSIO_ROOT" = some "") :
    determine_root_directory env = ⟨""⟩
      ∧ (determine_root_directory env).root_directory = ⟨""⟩ := by
  rw [determine_root_directory_of_override env "" hset]
  exact ⟨rfl, rfl⟩

/-- Witness of C10 as amended. -/
theorem determine_root_directory_empty_override_witness :
    (override_env "").getenv "EOSIO_ROOT" = some ""
      ∧ determine_root_directory (override_env "") = ⟨""⟩ :=
  ⟨rfl, (determine_root_directory_empty_override (override_env "") rfl).1⟩

/-- Counterexample to C10 as stated: the binary is /opt/app/bin/node and
/opt/app/etc exists. With EOSIO_ROOT unset the root is /opt/app; with EOSIO_ROOT
set to the empty string the root is the empty path, not /opt/app, and it has no
root directory. -/
theorem empty_override_is_used :
    (override_env "").getenv "EOSIO_ROOT" = some ""
      ∧ (override_env "").program_location = example_env.program_location
      ∧ determine_root_directory example_env = ⟨"/opt/app"⟩
      ∧ determine_root_directory (override_env "") = ⟨""⟩
      ∧ determine_root_directory (override_env "") ≠ determine_root_directory example_env
      ∧ (determine_root_directory (override_env "")).root_directory ≠ ⟨"/"⟩ := by
  have h1 : determine_root_directory (override_env "") = ⟨""⟩ :=
    determine_root_directory_of_override (override_env "") "" rfl
  refine ⟨rfl, rfl, determine_root_directory_example, h1, ?_, ?_⟩
  · rw [h1, determine_root_directory_example]
    decide
  · rw [h1]
    decide

end Nodeos
